import Mathlib

/-!
Verification of the codealign consumer (`src/codealigner.py`).

Strings are modelled as `List Char`; Python's `str.split`, `str.join`,
`str.strip` and the two `re` patterns used by `clean_c_code` are embedded
as executable Lean functions below.  Python floats are modelled by `ℚ`.
-/

set_option autoImplicit false

namespace Codealigner

/-- The whitespace class of Python's `str.strip()` and of `re`'s
whitespace class, restricted to the ASCII characters it contains. -/
def pySpace (c : Char) : Bool :=
  c = ' ' || c = '\t' || c = '\n' || c = '\r' || c = '\x0b' || c = '\x0c'

/-- The word-character class of `re` (letters, digits, underscore),
restricted to ASCII. -/
def wordChar (c : Char) : Bool :=
  c.isAlphanum || c = '_'

/-- Remove leading whitespace (Python `str.lstrip`). -/
def lstrip (l : List Char) : List Char :=
  l.dropWhile pySpace

/-- Remove trailing whitespace (Python `str.rstrip`). -/
def rstrip (l : List Char) : List Char :=
  (l.reverse.dropWhile pySpace).reverse

/-- Remove leading and trailing whitespace (Python `str.strip`). -/
def strip (l : List Char) : List Char :=
  rstrip (lstrip l)

/-- Python `code.split('\n')`: always returns one more piece than there
are newline characters; never returns the empty list. -/
def splitNl (l : List Char) : List (List Char) :=
  match l with
  | [] => [[]]
  | c :: cs =>
    if c = '\n' then [] :: splitNl cs
    else
      let r := splitNl cs
      (c :: r.headI) :: r.tail

/-- Python `'\n'.join(lines)`. -/
def joinNl : List (List Char) → List Char
  | [] => []
  | [l] => l
  | l :: ls => l ++ '\n' :: joinNl ls

/-- Consume one or more characters of class `p` (greedy `p+`);
`none` when the first character is not of class `p`. -/
def chompPlus (p : Char → Bool) (s : List Char) : Option (List Char) :=
  match s with
  | [] => none
  | c :: cs => if p c then some (cs.dropWhile p) else none

/-- Consume exactly the character `a`. -/
def chompChar (a : Char) (s : List Char) : Option (List Char) :=
  match s with
  | [] => none
  | c :: cs => if c = a then some cs else none

/-- Consume exactly the literal `lit`. -/
def chompLit (lit s : List Char) : Option (List Char) :=
  if lit.isPrefixOf s then some (s.drop lit.length) else none

/-- An optional regex group `(kw\s+)?` followed by the continuation `k`:
the pattern matches when either the keyword-with-whitespace branch or the
empty branch lets the continuation match (regex backtracking). -/
def optGroup (kw : List Char) (k : List Char → Bool) (s : List Char) : Bool :=
  (match chompLit kw s with
   | some s1 =>
     match chompPlus pySpace s1 with
     | some s2 => k s2
     | none => false
   | none => false) || k s

/-- The tail of the first array-initializer pattern of `clean_c_code`:
the suffix of the regex reading a type word, an identifier and a bracket
pair holding an optional digit sequence, then an equals sign. -/
def matchTail (s : List Char) : Bool :=
  (do
    let s1 ← chompPlus wordChar s
    let s2 ← chompPlus pySpace s1
    let s3 ← chompPlus wordChar s2
    let s4 ← chompChar '[' (s3.dropWhile pySpace)
    let s5 ← chompChar ']' (((s4.dropWhile pySpace).dropWhile Char.isDigit).dropWhile pySpace)
    let _ ← chompChar '=' (s5.dropWhile pySpace)
    pure ()).isSome

/-- `re.match` with the first pattern of `clean_c_code`, anchored at the
start of the line. -/
def regex1Match (line : List Char) : Bool :=
  optGroup ("static".toList) (fun s => optGroup ("const".toList) matchTail s)
    (line.dropWhile pySpace)

/-- `re.match` with the second pattern of `clean_c_code`:
`static const`, a type word, an identifier and an empty bracket pair. -/
def regex2Match (line : List Char) : Bool :=
  (do
    let s1 ← chompLit ("static".toList) (line.dropWhile pySpace)
    let s2 ← chompPlus pySpace s1
    let s3 ← chompLit ("const".toList) s2
    let s4 ← chompPlus pySpace s3
    let s5 ← chompPlus wordChar s4
    let s6 ← chompPlus pySpace s5
    let s7 ← chompPlus wordChar s6
    let s8 ← chompChar '[' (s7.dropWhile pySpace)
    let _ ← chompChar ']' (s8.dropWhile pySpace)
    pure ()).isSome

/-- Modelled from the words of claim C3 only (for comparison with the
code's `regex1Match`): optional leading whitespace, optional `static`,
optional `const`, a type word, an identifier, an array subscript whose
brackets hold arbitrary content (any characters up to the closing
bracket), then an equals sign. -/
def specTail (s : List Char) : Bool :=
  (do
    let s1 ← chompPlus wordChar s
    let s2 ← chompPlus pySpace s1
    let s3 ← chompPlus wordChar s2
    let s4 ← chompChar '[' (s3.dropWhile pySpace)
    let s5 ← chompChar ']' (s4.dropWhile (fun c => c != ']'))
    let _ ← chompChar '=' (s5.dropWhile pySpace)
    pure ()).isSome

/-- The full claim-C3 line shape built from `specTail`. -/
def specArrayInitMatch (line : List Char) : Bool :=
  optGroup ("static".toList) (fun s => optGroup ("const".toList) specTail s)
    (line.dropWhile pySpace)

/-- One iteration of the `clean_c_code` loop: given the current
`skip_until_endif` state and a line, return the new state and whether the
line is appended to `filtered_lines`.  The branch order is the source's. -/
def lineStep (skipUntilEndif : Bool) (line : List Char) : Bool × Bool :=
  let stripped := strip line
  if ("#ifdef".toList).isPrefixOf stripped || ("#ifndef".toList).isPrefixOf stripped then
    (true, false)
  else if ("#else".toList).isPrefixOf stripped then
    (!skipUntilEndif, false)
  else if ("#endif".toList).isPrefixOf stripped then
    (false, false)
  else if skipUntilEndif then
    (skipUntilEndif, false)
  else if ("#".toList).isPrefixOf stripped then
    (skipUntilEndif, true)
  else if regex1Match line then
    (skipUntilEndif, false)
  else if regex2Match line then
    (skipUntilEndif, false)
  else
    (skipUntilEndif, true)

/-- The `clean_c_code` loop over the list of lines. -/
def processLines : Bool → List (List Char) → List (List Char)
  | _, [] => []
  | skip, l :: ls =>
    let st := lineStep skip l
    if st.2 then l :: processLines st.1 ls else processLines st.1 ls

/-- `clean_c_code` from `src/codealigner.py`: split on newlines, filter
with the directive/initializer rules, rejoin with newlines. -/
def clean_c_code (code : List Char) : List Char :=
  joinNl (processLines false (splitNl code))

/-- A function descriptor as produced by the external C parser: the code
only reads its `name` field. -/
structure FuncDesc where
  name : List Char

/-- `extract_function_names` from `src/codealigner.py`, with the external
`parse_c` collaborator passed in.  The `try/except` is modelled by
`Except`: on success the mapped names are returned with no warning, on a
parse error the caught exception message is returned as the printed
warning together with the empty list. -/
def extract_function_names (parse_c : List Char → Except (List Char) (List FuncDesc))
    (code : List Char) : List (List Char) × Option (List Char) :=
  match parse_c code with
  | Except.ok functions => (functions.map (fun f => f.name), none)
  | Except.error e => ([], some e)

/-- The counter-accumulating loop of `calculate_alignment_percentage`:
`total` and `aligned` are `total_candidate_instrs` and
`aligned_candidate_instrs`; the candidate side is examined first, exactly
as in the source. -/
def tallyAux {α β : Type} : Nat → Nat → List (Option α × Option β) → Nat × Nat
  | total, aligned, [] => (total, aligned)
  | total, aligned, (some _, some _) :: rest => tallyAux (total + 1) (aligned + 1) rest
  | total, aligned, (none, some _) :: rest => tallyAux (total + 1) aligned rest
  | total, aligned, (_, none) :: rest => tallyAux total aligned rest

/-- `calculate_alignment_percentage` from `src/codealigner.py` over the
`alignment_list` (reference side first in each pair); the float result is
modelled in `ℚ`. -/
def calculate_alignment_percentage {α β : Type} (l : List (Option α × Option β)) : ℚ :=
  let tc := tallyAux 0 0 l
  if tc.1 = 0 then 0 else ((tc.2 : ℚ) / (tc.1 : ℚ)) * 100

/-- The spec's `total_candidate`: the number of pairs whose candidate
side is present. -/
def total_candidate {α β : Type} (l : List (Option α × Option β)) : Nat :=
  l.countP (fun p => p.2.isSome)

/-- The spec's `aligned_candidate`: the number of pairs whose candidate
side and reference side are both present. -/
def aligned_candidate {α β : Type} (l : List (Option α × Option β)) : Nat :=
  l.countP (fun p => p.2.isSome && p.1.isSome)

/-- `ref_line[:77] if len(ref_line) > 77 else ref_line`. -/
def trunc77 (l : List Char) : List Char :=
  if l.length > 77 then l.take 77 else l

/-- Python `f-string` padding `{x:<79}`: pad on the right with spaces to
width 79 (strings already longer are left unchanged). -/
def pad79 (l : List Char) : List Char :=
  l ++ List.replicate (79 - l.length) ' '

/-- One printed row `f"{ref_line : <79} | {cand_line:<79}"`. -/
def mkRow (a b : List Char) : List Char :=
  pad79 a ++ [' ', '|', ' '] ++ pad79 b

/-- The sentinel printed for an absent side of a pair. -/
def cross : List Char := ['❌']

/-- The block of lines `display_alignment_ir` prints for one pair of
`alignment_list`: the row-aligned sub-lines followed by the separator. -/
def renderPair (ref cand : Option (List Char)) : List (List Char) :=
  let refStr := match ref with | none => cross | some s => s
  let candStr := match cand with | none => cross | some s => s
  let refLines := splitNl refStr
  let candLines := splitNl candStr
  let maxLines := max refLines.length candLines.length
  ((List.range maxLines).map fun i =>
    mkRow (trunc77 (refLines.getD i [])) (trunc77 (candLines.getD i []))) ++
  [List.replicate 155 '-']

/-- All lines printed by `display_alignment_ir`: the banner and header,
then the block of each pair in order.  Instructions are identified with
their `str` rendering, so a pair carries the two optional strings. -/
def display_alignment_ir (l : List (Option (List Char) × Option (List Char))) :
    List (List Char) :=
  [[], List.replicate 155 '=', ("INSTRUCTION-LEVEL ALIGNMENT".toList),
   List.replicate 155 '=', mkRow ("REFERENCE".toList) ("CANDIDATE".toList),
   List.replicate 155 '-'] ++
  (l.map fun p => renderPair p.1 p.2).flatten

/-! ## The Match Scorer -/

theorem tallyAux_eq {α β : Type} (l : List (Option α × Option β)) (t a : Nat) :
    tallyAux t a l = (t + total_candidate l, a + aligned_candidate l) := by
  induction l generalizing t a with
  | nil => simp [tallyAux, total_candidate, aligned_candidate]
  | cons p rest ih =>
    obtain ⟨r, c⟩ := p
    cases r <;> cases c <;>
      simp [tallyAux, total_candidate, aligned_candidate, List.countP_cons, ih] <;>
      omega

theorem score_eq {α β : Type} (l : List (Option α × Option β)) :
    calculate_alignment_percentage l =
      if 0 < total_candidate l
      then ((aligned_candidate l : ℚ) / (total_candidate l : ℚ)) * 100
      else 0 := by
  simp only [calculate_alignment_percentage, tallyAux_eq, Nat.zero_add]
  rcases Nat.eq_zero_or_pos (total_candidate l) with h | h
  · simp [h]
  · rw [if_neg (by omega), if_pos h]

/-- Claim C1: for every AlignmentResult, the score equals
`aligned_candidate / total_candidate * 100` when `total_candidate > 0`
and `0.0` otherwise, where `total_candidate` counts the pairs whose
candidate side is present and `aligned_candidate` counts the pairs whose
candidate and reference sides are both present. -/
theorem score_spec {α β : Type} (l : List (Option α × Option β)) :
    calculate_alignment_percentage l =
      if 0 < total_candidate l
      then ((aligned_candidate l : ℚ) / (total_candidate l : ℚ)) * 100
      else 0 :=
  score_eq l

theorem aligned_le_total {α β : Type} (l : List (Option α × Option β)) :
    aligned_candidate l ≤ total_candidate l := by
  apply List.countP_mono_left
  intro x _ hx
  simp only [Bool.and_eq_true] at hx
  exact hx.1

/-- Claim C8: for every AlignmentResult, the score lies in the closed
interval from 0 to 100. -/
theorem score_bounds {α β : Type} (l : List (Option α × Option β)) :
    0 ≤ calculate_alignment_percentage l ∧ calculate_alignment_percentage l ≤ 100 := by
  rw [score_eq]
  rcases Nat.eq_zero_or_pos (total_candidate l) with h | h
  · rw [if_neg (by omega)]
    norm_num
  · rw [if_pos h]
    have ht : (0 : ℚ) < (total_candidate l : ℚ) := by exact_mod_cast h
    have h1 : ((aligned_candidate l : ℚ) / (total_candidate l : ℚ)) ≤ 1 := by
      rw [div_le_one ht]
      exact_mod_cast aligned_le_total l
    constructor
    · positivity
    · calc ((aligned_candidate l : ℚ) / (total_candidate l : ℚ)) * 100
          ≤ 1 * 100 := by
            apply mul_le_mul_of_nonneg_right h1
            norm_num
        _ = 100 := by norm_num

/-- Claim C9: the score is determined solely by the presence pattern of
the pairs — two alignment lists whose pairs agree position-by-position on
presence of the reference side and of the candidate side get the same
score, whatever the instruction contents (even their types) are. -/
theorem score_presence_only {α₁ β₁ α₂ β₂ : Type}
    (l₁ : List (Option α₁ × Option β₁)) (l₂ : List (Option α₂ × Option β₂))
    (h : l₁.map (fun p => (p.1.isSome, p.2.isSome))
       = l₂.map (fun p => (p.1.isSome, p.2.isSome))) :
    calculate_alignment_percentage l₁ = calculate_alignment_percentage l₂ := by
  have ht : total_candidate l₁ = total_candidate l₂ := by
    have h1 := congrArg (List.countP (fun q : Bool × Bool => q.2)) h
    simpa [total_candidate, List.countP_map, Function.comp_def] using h1
  have ha : aligned_candidate l₁ = aligned_candidate l₂ := by
    have h1 := congrArg (List.countP (fun q : Bool × Bool => q.2 && q.1)) h
    simpa [aligned_candidate, List.countP_map, Function.comp_def] using h1
  rw [score_eq, score_eq, ht, ha]

/-- Witness for claim C9 at concrete inputs of different element types
but equal presence patterns. -/
theorem score_presence_only_w :
    calculate_alignment_percentage [((some 0 : Option Nat), (some 1 : Option Nat)), (none, some 2)]
      = calculate_alignment_percentage
          [((some ['a'] : Option (List Char)), (some ['b'] : Option (List Char))), (none, some ['c'])] :=
  score_presence_only _ _ (by decide)

/-- Claim C2 counterexample: at the concrete all-absent pair, the block
the Renderer emits is not an empty row followed by the separator — the
row carries the absent-sentinel glyph in both columns, refuting "emits
that pair as an empty row". -/
theorem absent_pair_not_empty_row :
    renderPair none none ≠ [mkRow [] [], List.replicate 155 '-'] := by
  decide

/-- Claim C2 (amended): an InstructionPair with both sides absent does
not change `total_candidate`, `aligned_candidate` or the score, and the
Renderer emits it as a single row carrying the absent-sentinel glyph in
both columns, followed by one separator (not as an empty row). -/
theorem absent_pair_zero_weight {α β : Type} (l₁ l₂ : List (Option α × Option β)) :
    total_candidate (l₁ ++ (none, none) :: l₂) = total_candidate (l₁ ++ l₂)
    ∧ aligned_candidate (l₁ ++ (none, none) :: l₂) = aligned_candidate (l₁ ++ l₂)
    ∧ calculate_alignment_percentage (l₁ ++ (none, none) :: l₂)
        = calculate_alignment_percentage (l₁ ++ l₂)
    ∧ renderPair none none = [mkRow cross cross, List.replicate 155 '-'] := by
  have ht : total_candidate (l₁ ++ (none, none) :: l₂) = total_candidate (l₁ ++ l₂) := by
    simp [total_candidate, List.countP_append, List.countP_cons]
  have ha : aligned_candidate (l₁ ++ (none, none) :: l₂) = aligned_candidate (l₁ ++ l₂) := by
    simp [aligned_candidate, List.countP_append, List.countP_cons]
  refine ⟨ht, ha, ?_, ?_⟩
  · rw [score_eq, score_eq, ht, ha]
  · decide

/-! ## The Alignment Renderer -/

theorem renderPair_eq (r c : List Char) :
    renderPair (some r) (some c)
      = ((List.range (max (splitNl r).length (splitNl c).length)).map fun i =>
          mkRow (trunc77 ((splitNl r).getD i [])) (trunc77 ((splitNl c).getD i []))) ++
        [List.replicate 155 '-'] :=
  rfl

/-- Claim C7: for a pair whose reference string has `m` lines and whose
candidate string has `n` lines, the Renderer emits exactly `max m n`
row-aligned lines followed by exactly one separator line, padding the
exhausted side with blank cells. -/
theorem renderPair_row_count (r c : List Char) :
    (renderPair (some r) (some c)).length
      = max (splitNl r).length (splitNl c).length + 1
    ∧ (renderPair (some r) (some c)).getLast? = some (List.replicate 155 '-')
    ∧ (∀ i, (splitNl r).length ≤ i →
        i < max (splitNl r).length (splitNl c).length →
        (renderPair (some r) (some c)).getD i []
          = mkRow [] (trunc77 ((splitNl c).getD i [])))
    ∧ (∀ i, (splitNl c).length ≤ i →
        i < max (splitNl r).length (splitNl c).length →
        (renderPair (some r) (some c)).getD i []
          = mkRow (trunc77 ((splitNl r).getD i [])) []) := by
  refine ⟨by simp [renderPair_eq], by simp [renderPair_eq, List.getLast?_concat], ?_, ?_⟩
  · intro i h1 h2
    have hlen : i < ((List.range (max (splitNl r).length (splitNl c).length)).map fun i =>
        mkRow (trunc77 ((splitNl r).getD i [])) (trunc77 ((splitNl c).getD i []))).length := by
      simpa using h2
    rw [renderPair_eq, List.getD_eq_getElem?_getD, List.getElem?_append_left hlen]
    simp [List.getElem?_range h2, List.getElem?_eq_none h1, trunc77]
  · intro i h1 h2
    have hlen : i < ((List.range (max (splitNl r).length (splitNl c).length)).map fun i =>
        mkRow (trunc77 ((splitNl r).getD i [])) (trunc77 ((splitNl c).getD i []))).length := by
      simpa using h2
    rw [renderPair_eq, List.getD_eq_getElem?_getD, List.getElem?_append_left hlen]
    simp [List.getElem?_range h2, List.getElem?_eq_none h1, trunc77]

/-- Witness for claim C7 at a two-line reference and one-line candidate:
three emitted lines, the second row padding the candidate side. -/
theorem renderPair_row_count_w :
    (renderPair (some ("a\nb".toList)) (some ("x".toList))).length = 3
    ∧ (renderPair (some ("a\nb".toList)) (some ("x".toList))).getD 1 [] = mkRow ['b'] [] := by
  constructor
  · rw [(renderPair_row_count ("a\nb".toList) ("x".toList)).1]
    decide
  · rw [(renderPair_row_count ("a\nb".toList) ("x".toList)).2.2.2 1 (by decide) (by decide)]
    decide

/-! ## The Function Name Extractor -/

/-- Claim C6: when the external parser fails, `extract_function_names`
does not propagate the error — it returns the empty sequence together
with the reported warning. -/
theorem extract_function_names_parse_error
    (parse_c : List Char → Except (List Char) (List FuncDesc))
    (code e : List Char) (h : parse_c code = Except.error e) :
    extract_function_names parse_c code = ([], some e) := by
  simp [extract_function_names, h]

/-- Witness for claim C6 with a parser rejecting every input. -/
theorem extract_function_names_parse_error_w :
    extract_function_names (fun _ => Except.error ("bad".toList)) []
      = ([], some ("bad".toList)) :=
  extract_function_names_parse_error _ _ _ rfl

/-! ## The Source Sanitizer: splitting and joining lines -/

theorem splitNl_ne_nil (l : List Char) : splitNl l ≠ [] := by
  cases l with
  | nil => simp [splitNl]
  | cons c cs =>
    simp only [splitNl]
    split <;> simp

theorem mem_splitNl_no_nl (l : List Char) : ∀ x ∈ splitNl l, '\n' ∉ x := by
  induction l with
  | nil =>
    intro x hx
    simp [splitNl] at hx
    simp [hx]
  | cons c cs ih =>
    intro x hx
    simp only [splitNl] at hx
    by_cases hc : c = '\n'
    · rw [if_pos hc] at hx
      rcases List.mem_cons.mp hx with h | h
      · simp [h]
      · exact ih x h
    · rw [if_neg hc] at hx
      rcases List.mem_cons.mp hx with h | h
      · subst h
        intro hmem
        rcases List.mem_cons.mp hmem with h | h
        · exact hc h.symm
        · have hhead : (splitNl cs).headI ∈ splitNl cs := by
            have hne := splitNl_ne_nil cs
            cases hsp : splitNl cs with
            | nil => exact absurd hsp hne
            | cons y ys => simp [List.headI]
          exact ih _ hhead h
      · have htail : x ∈ splitNl cs := by
          cases hsp : splitNl cs with
          | nil => exact absurd hsp (splitNl_ne_nil cs)
          | cons y ys =>
            rw [hsp] at h
            exact List.mem_cons_of_mem y h
        exact ih x htail

theorem splitNl_append_nl (a r : List Char) (h : '\n' ∉ a) :
    splitNl (a ++ '\n' :: r) = a :: splitNl r := by
  induction a with
  | nil => simp [splitNl]
  | cons c a' ih =>
    have hc : c ≠ '\n' := fun hc => h (hc ▸ List.mem_cons_self c a')
    have h' : '\n' ∉ a' := fun hm => h (List.mem_cons_of_mem c hm)
    simp only [List.cons_append, splitNl, if_neg hc, List.append_eq]
    rw [ih h']
    simp [List.headI]

theorem splitNl_no_nl_eq (a : List Char) (h : '\n' ∉ a) : splitNl a = [a] := by
  induction a with
  | nil => simp [splitNl]
  | cons c a' ih =>
    have hc : c ≠ '\n' := fun hc => h (hc ▸ List.mem_cons_self c a')
    have h' : '\n' ∉ a' := fun hm => h (List.mem_cons_of_mem c hm)
    simp only [splitNl, if_neg hc]
    rw [ih h']
    simp [List.headI]

theorem splitNl_joinNl (ls : List (List Char)) (h0 : ls ≠ [])
    (h : ∀ l ∈ ls, '\n' ∉ l) : splitNl (joinNl ls) = ls := by
  induction ls with
  | nil => exact absurd rfl h0
  | cons l ls' ih =>
    cases ls' with
    | nil => exact splitNl_no_nl_eq l (h l (List.mem_cons_self l []))
    | cons m ms =>
      have hjoin : joinNl (l :: m :: ms) = l ++ '\n' :: joinNl (m :: ms) := rfl
      rw [hjoin, splitNl_append_nl l _ (h l (List.mem_cons_self l _)),
        ih (by simp) (fun x hx => h x (List.mem_cons_of_mem l hx))]

/-! ## The Source Sanitizer: the filtering loop -/

theorem processLines_subset (b : Bool) (ls : List (List Char)) :
    ∀ x ∈ processLines b ls, x ∈ ls := by
  induction ls generalizing b with
  | nil => simp [processLines]
  | cons l ls' ih =>
    intro x hx
    simp only [processLines] at hx
    split at hx
    · rcases List.mem_cons.mp hx with h | h
      · simp [h]
      · exact List.mem_cons_of_mem l (ih _ x h)
    · exact List.mem_cons_of_mem l (ih _ x hx)

theorem lineStep_keep_stable (b : Bool) (l : List Char)
    (h : (lineStep b l).2 = true) : lineStep false l = (false, true) := by
  revert h
  simp only [lineStep]
  split_ifs <;> simp_all

theorem processLines_mem_stable (b : Bool) (ls : List (List Char)) :
    ∀ k ∈ processLines b ls, lineStep false k = (false, true) := by
  induction ls generalizing b with
  | nil => simp [processLines]
  | cons l ls' ih =>
    intro k hk
    simp only [processLines] at hk
    split at hk
    · rcases List.mem_cons.mp hk with h | h
      · subst h
        exact lineStep_keep_stable b k (by assumption)
      · exact ih _ k h
    · exact ih _ k hk

theorem processLines_fixed (ls : List (List Char))
    (h : ∀ k ∈ ls, lineStep false k = (false, true)) :
    processLines false ls = ls := by
  induction ls with
  | nil => rfl
  | cons l ls' ih =>
    have hl := h l (List.mem_cons_self l ls')
    simp only [processLines, hl]
    exact congrArg (l :: ·) (ih fun k hk => h k (List.mem_cons_of_mem l hk))

/-- Claim C4: the sanitizer is idempotent. -/
theorem clean_c_code_idempotent (code : List Char) :
    clean_c_code (clean_c_code code) = clean_c_code code := by
  unfold clean_c_code
  rcases eq_or_ne (processLines false (splitNl code)) [] with h | h
  · rw [h]
    decide
  · have hnl : ∀ l ∈ processLines false (splitNl code), '\n' ∉ l := fun l hl =>
      mem_splitNl_no_nl code l (processLines_subset false (splitNl code) l hl)
    rw [splitNl_joinNl _ h hnl,
      processLines_fixed _ (processLines_mem_stable false (splitNl code))]

/-- Every line of the sanitizer's output is a fixed point of the
filtering step: re-examined with suppression off it is kept and leaves
suppression off. -/
theorem mem_clean_stable (code : List Char) :
    ∀ l ∈ splitNl (clean_c_code code), lineStep false l = (false, true) := by
  intro l hl
  unfold clean_c_code at hl
  rcases eq_or_ne (processLines false (splitNl code)) [] with h | h
  · rw [h] at hl
    have : l = [] := by
      have : splitNl (joinNl []) = [[]] := by decide
      rw [this] at hl
      simpa using hl
    subst this
    decide
  · have hnl : ∀ x ∈ processLines false (splitNl code), '\n' ∉ x := fun x hx =>
      mem_splitNl_no_nl code x (processLines_subset false (splitNl code) x hx)
    rw [splitNl_joinNl _ h hnl] at hl
    exact processLines_mem_stable false (splitNl code) l hl

/-! ## Leading and trailing whitespace versus prefixes -/

theorem dropWhile_all_neg {p : Char → Bool} {l : List Char}
    (h : ∀ c ∈ l, p c = false) : l.dropWhile p = l := by
  cases l with
  | nil => rfl
  | cons c cs =>
    rw [List.dropWhile_cons, if_neg]
    simp [h c (List.mem_cons_self c cs)]

theorem rstrip_prefix_self (s : List Char) : rstrip s <+: s := by
  have h : s.reverse.dropWhile pySpace <:+ s.reverse := List.dropWhile_suffix pySpace
  have h2 := List.reverse_prefix.mpr h
  rwa [List.reverse_reverse] at h2

theorem rstrip_keeps_prefix (d s : List Char)
    (hws : ∀ c ∈ d, pySpace c = false) (h : d <+: s) : d <+: rstrip s := by
  obtain ⟨t, rfl⟩ := h
  unfold rstrip
  rw [List.reverse_append, List.dropWhile_append]
  split
  · rw [dropWhile_all_neg (by intro c hc; exact hws c (List.mem_reverse.mp hc)),
      List.reverse_reverse]
  · rw [List.reverse_append, List.reverse_reverse]
    exact ⟨_, rfl⟩

theorem isPrefixOf_strip_of_lstrip (d l : List Char)
    (hws : ∀ c ∈ d, pySpace c = false)
    (h : d.isPrefixOf (lstrip l) = true) : d.isPrefixOf (strip l) = true := by
  rw [List.isPrefixOf_iff_prefix] at h ⊢
  exact rstrip_keeps_prefix d (lstrip l) hws h

theorem isPrefixOf_lstrip_of_strip (d l : List Char)
    (h : d.isPrefixOf (strip l) = true) : d.isPrefixOf (lstrip l) = true := by
  rw [List.isPrefixOf_iff_prefix] at h ⊢
  exact h.trans (rstrip_prefix_self (lstrip l))

/-! ## Kept lines match none of the dropped shapes -/

theorem lineStep_kept_not_directive (b : Bool) (l : List Char)
    (h : (lineStep b l).2 = true) :
    ¬ ("#ifdef".toList <+: strip l)
    ∧ ¬ ("#ifndef".toList <+: strip l)
    ∧ ¬ ("#else".toList <+: strip l)
    ∧ ¬ ("#endif".toList <+: strip l) := by
  revert h
  simp only [lineStep]
  split_ifs <;> simp_all

theorem hash_lstrip_shape (l : List Char)
    (h : ("#".toList).isPrefixOf (strip l) = true) :
    ∃ t, lstrip l = '#' :: t := by
  have h2 := isPrefixOf_lstrip_of_strip _ l h
  rw [List.isPrefixOf_iff_prefix] at h2
  obtain ⟨t, ht⟩ := h2
  exact ⟨t, ht.symm⟩

theorem hash_regex1_false (l : List Char)
    (h : ("#".toList).isPrefixOf (strip l) = true) : regex1Match l = false := by
  obtain ⟨t, ht⟩ := hash_lstrip_shape l h
  have hdrop : l.dropWhile pySpace = '#' :: t := ht
  simp +decide [regex1Match, hdrop, optGroup, chompLit, List.isPrefixOf, matchTail,
    chompPlus, wordChar, Char.isAlphanum, Char.isAlpha, Char.isDigit, Char.isUpper,
    Char.isLower]

theorem lineStep_kept_not_regex1 (b : Bool) (l : List Char)
    (h : (lineStep b l).2 = true) : regex1Match l = false := by
  by_cases h5 : ("#".toList).isPrefixOf (strip l) = true
  · exact hash_regex1_false l h5
  · by_cases h6 : regex1Match l = false
    · exact h6
    · exfalso
      revert h
      simp only [lineStep]
      split_ifs <;> simp_all

/-- Claim C5: no line of the sanitizer's output starts, after trimming
leading whitespace, with one of the four conditional-compilation
directives. -/
theorem clean_no_conditionals (code : List Char) :
    ∀ l ∈ splitNl (clean_c_code code),
      ("#ifdef".toList).isPrefixOf (lstrip l) = false
      ∧ ("#ifndef".toList).isPrefixOf (lstrip l) = false
      ∧ ("#else".toList).isPrefixOf (lstrip l) = false
      ∧ ("#endif".toList).isPrefixOf (lstrip l) = false := by
  intro l hl
  have hstep := mem_clean_stable code l hl
  have hkept : (lineStep false l).2 = true := by rw [hstep]
  obtain ⟨h1, h2, h3, h4⟩ := lineStep_kept_not_directive false l hkept
  refine ⟨?_, ?_, ?_, ?_⟩
  · rw [Bool.eq_false_iff]
    intro hc
    exact h1 (List.isPrefixOf_iff_prefix.mp
      (isPrefixOf_strip_of_lstrip _ l (by decide) hc))
  · rw [Bool.eq_false_iff]
    intro hc
    exact h2 (List.isPrefixOf_iff_prefix.mp
      (isPrefixOf_strip_of_lstrip _ l (by decide) hc))
  · rw [Bool.eq_false_iff]
    intro hc
    exact h3 (List.isPrefixOf_iff_prefix.mp
      (isPrefixOf_strip_of_lstrip _ l (by decide) hc))
  · rw [Bool.eq_false_iff]
    intro hc
    exact h4 (List.isPrefixOf_iff_prefix.mp
      (isPrefixOf_strip_of_lstrip _ l (by decide) hc))

/-- Witness for claim C5 on a concrete input holding all four
directives: the surviving line carries none of them. -/
theorem clean_no_conditionals_w :
    ("#ifdef".toList).isPrefixOf (lstrip ("y".toList)) = false
    ∧ ("#ifndef".toList).isPrefixOf (lstrip ("y".toList)) = false
    ∧ ("#else".toList).isPrefixOf (lstrip ("y".toList)) = false
    ∧ ("#endif".toList).isPrefixOf (lstrip ("y".toList)) = false :=
  clean_no_conditionals ("#ifdef A\nx\n#else\nz\n#endif\ny\n#ifndef B\nw".toList)
    ("y".toList) (by decide)

/-- Claim C3 counterexample: the line `int foo[N] = 0;` has the claimed
shape — type word, identifier, subscript with (arbitrary) content `N`,
equals sign — yet the sanitizer keeps it: its output is the line itself,
so the claim's "arbitrary content between the brackets" is too broad. -/
theorem array_line_arbitrary_subscript_kept :
    specArrayInitMatch ("int foo[N] = 0;".toList) = true
    ∧ clean_c_code ("int foo[N] = 0;".toList) = "int foo[N] = 0;".toList := by
  constructor
  · decide
  · decide

/-- Claim C3 (amended): a line of that shape is dropped exactly when the
bracket content is an optional digit sequence surrounded by optional
whitespace — equivalently, no line of the sanitizer's output matches the
first array-initializer pattern. -/
theorem clean_no_array_init (code : List Char) :
    ∀ l ∈ splitNl (clean_c_code code), regex1Match l = false := by
  intro l hl
  have hstep := mem_clean_stable code l hl
  exact lineStep_kept_not_regex1 false l (by rw [hstep])

/-- Witness for the amended claim C3: on an input whose first line is a
digit-subscript array initializer, the surviving line does not match the
pattern (and the initializer line was dropped). -/
theorem clean_no_array_init_w :
    regex1Match ("int f;".toList) = false :=
  clean_no_array_init ("static int xs[3] = 0;\nint f;".toList) ("int f;".toList)
    (by decide)

/-! ## The `#else` toggle -/

theorem lineStep_else_on (l : List Char)
    (h : ("#else".toList).isPrefixOf (strip l) = true) :
    lineStep false l = (true, false) := by
  have h' : "#else".toList <+: strip l := List.isPrefixOf_iff_prefix.mp h
  have hne1 : ¬ ("#ifdef".toList <+: strip l) := by
    obtain ⟨t, ht⟩ := h'
    rw [← ht]
    intro hc
    obtain ⟨u, hu⟩ := hc
    simp at hu
  have hne2 : ¬ ("#ifndef".toList <+: strip l) := by
    obtain ⟨t, ht⟩ := h'
    rw [← ht]
    intro hc
    obtain ⟨u, hu⟩ := hc
    simp at hu
  simp only [lineStep]
  split_ifs <;> simp_all

theorem lineStep_skipping (p : List Char)
    (h1 : ¬ ("#else".toList <+: strip p))
    (h2 : ¬ ("#endif".toList <+: strip p)) :
    lineStep true p = (true, false) := by
  simp only [lineStep]
  split_ifs <;> simp_all

theorem processLines_skip_all (post rest : List (List Char))
    (h : ∀ p ∈ post, ¬ ("#else".toList <+: strip p) ∧ ¬ ("#endif".toList <+: strip p)) :
    processLines true (post ++ rest) = processLines true rest := by
  induction post with
  | nil => rfl
  | cons p post' ih =>
    obtain ⟨h1, h2⟩ := h p (List.mem_cons_self p post')
    simp only [List.cons_append, processLines, lineStep_skipping p h1 h2]
    exact ih fun q hq => h q (List.mem_cons_of_mem p hq)

/-- Claim C10: a line whose leading-whitespace-trimmed form starts with
`#else`, met while suppression is off (also with no preceding `#ifdef`
or `#ifndef`), turns suppression on: that line and every following line
up to the next `#else` or `#endif` line are dropped. -/
theorem else_turns_on_suppression (l : List Char) (post rest : List (List Char))
    (hl : ("#else".toList).isPrefixOf (lstrip l) = true)
    (hpost : ∀ p ∈ post, ("#else".toList).isPrefixOf (lstrip p) = false
        ∧ ("#endif".toList).isPrefixOf (lstrip p) = false) :
    processLines false (l :: (post ++ rest)) = processLines true rest := by
  have hstrip : ("#else".toList).isPrefixOf (strip l) = true :=
    isPrefixOf_strip_of_lstrip _ l (by decide) hl
  have hfirst : processLines false (l :: (post ++ rest))
      = processLines true (post ++ rest) := by
    simp [processLines, lineStep_else_on l hstrip]
  rw [hfirst]
  apply processLines_skip_all
  intro p hp
  obtain ⟨h1, h2⟩ := hpost p hp
  constructor
  · intro hc
    have := isPrefixOf_lstrip_of_strip ("#else".toList) p
      (List.isPrefixOf_iff_prefix.mpr hc)
    rw [h1] at this
    exact Bool.false_ne_true this
  · intro hc
    have := isPrefixOf_lstrip_of_strip ("#endif".toList) p
      (List.isPrefixOf_iff_prefix.mpr hc)
    rw [h2] at this
    exact Bool.false_ne_true this

/-- Witness for claim C10: a lone `#else` with no preceding conditional
suppresses the lines after it. -/
theorem else_turns_on_suppression_w :
    processLines false (("#else".toList) :: (["int a;".toList] ++ ["b".toList]))
      = processLines true ["b".toList] :=
  else_turns_on_suppression ("#else".toList) ["int a;".toList] ["b".toList]
    (by decide) (by decide)

end Codealigner
